import Mathlib

/-!
Shallow embedding of the workflow engine in `src/app/engine.py` (with the
`WorkflowState` record from `src/app/models.py`).

Modelling conventions, mirrored from the Python source:

* `WorkflowState.data` (`Dict[str, Any]`) is an association list
  `List (String × V)` over an arbitrary value type `V` with decidable
  equality; `dict.get` is `List.lookup`, returning `Option V`.  Python's
  `None` is the `none` of that `Option`: an absent key reads as `none`,
  exactly as `dict.get` returns `None`.
* A conditional edge's mapping (`Dict[Any, str]`, built in practice with
  `Optional[str]` targets and possibly `None` keys) is
  `List (Option V × Option String)`: a key `none` is Python's `None` used
  as a dictionary key, and a target `none` is a `None` target meaning
  "terminate".  `mapping.get(val)` is `condLookup`.
* The engine's dictionaries (`self.nodes`, `self.edges`) are association
  lists where insertion conses in front and `List.lookup` takes the first
  match, which reproduces dictionary overwrite (last registration wins).
* A node function (`NodeFunction = Callable[[WorkflowState], WorkflowState]`)
  may raise, so it is modelled as `WorkflowState V → Except String (WorkflowState V)`;
  the engine's own `ValueError` and a node's exception both surface as
  `Except.error`.  The sync/async distinction (`asyncio.iscoroutinefunction`)
  collapses: both branches apply the function and await it to completion.
* The optional `step_callback` (progress sink) is modelled by a `hasSink`
  flag plus an explicit transcript of the messages delivered to the sink,
  in delivery order; `asyncio.sleep(0.5)` is pure pacing with no data
  effect and is not modelled.  `run` returns the pair of the Python result
  (`Except` of final state and run log) and that transcript.
* The `while current_node_name and step_count < MAX_STEPS` condition tests
  Python truthiness of the string, so the loop also exits when the current
  node name is the empty string; likewise `if not edge_config` makes a
  direct edge with empty target resolve to "terminate".  The loop is
  driven by `fuel = MAX_STEPS - step_count`, structurally decreasing.
-/

namespace Workflow

/-- `WorkflowState` from `src/app/models.py`: a string-keyed data mapping
and the ordered history of executed node names. -/
structure WorkflowState (V : Type) where
  data : List (String × V)
  history : List String
  deriving DecidableEq, Repr

/-- `NodeFunction`: a state transformer that may raise (`Except.error`). -/
def NodeFunction (V : Type) : Type :=
  WorkflowState V → Except String (WorkflowState V)

/-- The two shapes stored in `self.edges`: a bare target string
(`add_edge`) or the conditional dictionary (`add_conditional_edge`). -/
inductive Edge (V : Type) where
  | direct (target : String)
  | conditional (key : String) (mapping : List (Option V × Option String))

/-- `WorkflowEngine.__init__`: empty node and edge dictionaries, no entry
point. -/
structure WorkflowEngine (V : Type) where
  nodes : List (String × NodeFunction V) := []
  edges : List (String × Edge V) := []
  start_node : Option String := none

/-- `WorkflowEngine.add_node`: `self.nodes[name] = func` (dictionary
assignment, i.e. overwrite). -/
def WorkflowEngine.add_node {V : Type} (eng : WorkflowEngine V) (name : String)
    (func : NodeFunction V) : WorkflowEngine V :=
  { eng with nodes := (name, func) :: eng.nodes }

/-- `WorkflowEngine.add_edge`: `self.edges[source] = target`. -/
def WorkflowEngine.add_edge {V : Type} (eng : WorkflowEngine V) (source target : String) :
    WorkflowEngine V :=
  { eng with edges := (source, Edge.direct target) :: eng.edges }

/-- `WorkflowEngine.add_conditional_edge`: `self.edges[source] =
{"type": "conditional", "key": condition_key, "mapping": mapping}`. -/
def WorkflowEngine.add_conditional_edge {V : Type} (eng : WorkflowEngine V)
    (source condition_key : String)
    (mapping : List (Option V × Option String)) : WorkflowEngine V :=
  { eng with edges := (source, Edge.conditional condition_key mapping) :: eng.edges }

/-- `WorkflowEngine.set_entry_point`: `self.start_node = node_name`. -/
def WorkflowEngine.set_entry_point {V : Type} (eng : WorkflowEngine V) (node_name : String) :
    WorkflowEngine V :=
  { eng with start_node := some node_name }

/-- `MAX_STEPS = 50` from `run`. -/
def MAX_STEPS : Nat := 50

/-- The step log line `f"Step {step_count + 1}: Executing '{current_node_name}'"`. -/
def stepMsg (step_count : Nat) (current_node_name : String) : String :=
  ("Step " ++ toString (step_count + 1)) ++
    (": Executing \x27" ++ (current_node_name ++ "\x27"))

/-- The final log line `"Execution Finished"`. -/
def finishMsg : String :=
  "Execution Finished"

/-- The `ValueError(f"Node '{current_node_name}' not found")` message. -/
def notFoundMsg (current_node_name : String) : String :=
  ("Node \x27" ++ current_node_name) ++ "\x27 not found"

/-- `mapping.get(val)` on a conditional edge's dictionary: the stored
target if `val` is a key (that target may itself be `none`), else `none`. -/
def condLookup {V : Type} [DecidableEq V]
    (mapping : List (Option V × Option String)) (val : Option V) :
    Option String :=
  match List.lookup val mapping with
  | some t => t
  | none => none

/-- The edge-resolution block of `run`: `edge_config = self.edges.get(...)`;
`if not edge_config` (so `None` and the falsy empty string both terminate),
`elif isinstance(edge_config, str)`, else the conditional lookup
`edge_config["mapping"].get(state.data.get(check_key))`. -/
def resolveNext {V : Type} [DecidableEq V] (edge_config : Option (Edge V))
    (state : WorkflowState V) : Option String :=
  match edge_config with
  | none => none
  | some (Edge.direct target) => if target = "" then none else some target
  | some (Edge.conditional check_key mapping) =>
      condLookup mapping (List.lookup check_key state.data)

/-- Loop exit of `run`: append `"Execution Finished"` to the log and
deliver it to the sink when one is attached. -/
def finishRun {V : Type} (hasSink : Bool) (state : WorkflowState V)
    (logs transcript : List String) :
    Except String (WorkflowState V × List String) × List String :=
  (Except.ok (state, logs ++ [finishMsg]),
   if hasSink then transcript ++ [finishMsg] else transcript)

/-- The `while` loop of `WorkflowEngine.run`, driven by the remaining fuel
`MAX_STEPS - step_count`.  Each iteration: append the step message to the
log (and deliver it to the sink first, before anything else can fail),
check `current_node_name not in self.nodes`, invoke the node (propagating
its error), append the node name to the state's history, resolve the next
node, and recurse with one unit of fuel less. -/
def runAux {V : Type} [DecidableEq V] (eng : WorkflowEngine V)
    (hasSink : Bool) :
    Nat → Option String → WorkflowState V → List String → List String →
    Except String (WorkflowState V × List String) × List String
  | fuel + 1, some current_node_name, state, logs, transcript =>
    if current_node_name = "" then
      finishRun hasSink state logs transcript
    else
      let msg := stepMsg (MAX_STEPS - (fuel + 1)) current_node_name
      let logs1 := logs ++ [msg]
      let transcript1 := if hasSink then transcript ++ [msg] else transcript
      match List.lookup current_node_name eng.nodes with
      | none => (Except.error (notFoundMsg current_node_name), transcript1)
      | some node_func =>
        match node_func state with
        | Except.error e => (Except.error e, transcript1)
        | Except.ok state1 =>
          let state2 : WorkflowState V :=
            { state1 with history := state1.history ++ [current_node_name] }
          runAux eng hasSink fuel
            (resolveNext (List.lookup current_node_name eng.edges) state2)
            state2 logs1 transcript1
  | _, _, state, logs, transcript =>
    finishRun hasSink state logs transcript

/-- `WorkflowEngine.run`: build the fresh state from the initial payload,
start from `self.start_node` with `step_count = 0` (fuel `MAX_STEPS`),
empty log and empty sink transcript. -/
def run {V : Type} [DecidableEq V] (eng : WorkflowEngine V) (hasSink : Bool)
    (initial_payload : List (String × V)) :
    Except String (WorkflowState V × List String) × List String :=
  runAux eng hasSink MAX_STEPS eng.start_node
    { data := initial_payload, history := [] } [] []

/-! Concrete engines used to instantiate the theorems below (`V := Unit`,
so that the data values that a conditional mapping can observe are
exhaustively `none` and `some ()`). -/

/-- The identity node function: returns its state unchanged. -/
def idNode : NodeFunction Unit :=
  fun s => Except.ok s

/-- A conditional mapping that sends every observable value to `target`. -/
def loopMapping (target : String) : List (Option Unit × Option String) :=
  [(none, some target), (some (), some target)]

/-- A graph whose single node `"n"` has a conditional self-loop that
always selects `"n"` again, with `"n"` as entry point. -/
def loopEngine : WorkflowEngine Unit :=
  { nodes := [("n", idNode)],
    edges := [("n", Edge.conditional ("k") (loopMapping ("n")))],
    start_node := some ("n") }

/-- Same self-loop graph, but the node is named by the empty string. -/
def loopEngineEmptyName : WorkflowEngine Unit :=
  { nodes := [("", idNode)],
    edges := [("", Edge.conditional ("k") (loopMapping ("")))],
    start_node := some ("") }

/-- An engine whose entry point `"a"` is not a registered node. -/
def missingEntryEngine : WorkflowEngine Unit :=
  { nodes := [], edges := [], start_node := some ("a") }

/-- An engine whose entry point is the empty string, absent from the
(empty) node mapping. -/
def emptyEntryEngine : WorkflowEngine Unit :=
  { nodes := [], edges := [], start_node := some ("") }

/-- Nodes `"A"` and `""` with a direct edge from `"A"` to the
empty-string node. -/
def edgeToEmptyEngine : WorkflowEngine Unit :=
  { nodes := [("A", idNode), ("", idNode)],
    edges := [("A", Edge.direct (""))],
    start_node := some ("A") }

/-- A single node `"a"` with no outgoing edge. -/
def singleNodeEngine : WorkflowEngine Unit :=
  { nodes := [("a", idNode)], edges := [], start_node := some ("a") }

/-- A node function that overwrites the history field of the state. -/
def clobberHistoryNode : NodeFunction Unit :=
  fun s => Except.ok { s with history := ["x"] }

/-- A single node `"A"` whose function rewrites the state's history. -/
def clobberEngine : WorkflowEngine Unit :=
  { nodes := [("A", clobberHistoryNode)], edges := [], start_node := some ("A") }

/-- A node function that always raises. -/
def boomNode : NodeFunction Unit :=
  fun _ => Except.error ("boom")

/-- A single node `"b"` whose function always raises, with `"b"` as entry. -/
def boomEngine : WorkflowEngine Unit :=
  { nodes := [("b", boomNode)], edges := [], start_node := some ("b") }

/-- Node `"A"` with a conditional edge on key `"k"` whose mapping has no
entry for the null value, so a run where `"k"` is absent terminates. -/
def condStopEngine : WorkflowEngine Unit :=
  { nodes := [("A", idNode)],
    edges := [("A", Edge.conditional ("k") [(some (), some ("B"))])],
    start_node := some ("A") }

/-- Base graph for the last-write-wins scenario: nodes `"A"`, `"B"`,
`"C"`, entry `"A"`, no edges yet. -/
def abcEngine : WorkflowEngine Unit :=
  { nodes := [("A", idNode), ("B", idNode), ("C", idNode)],
    edges := [], start_node := some ("A") }

/-- `abcEngine` after registering edge `A → B` and then edge `A → C`. -/
def abcRewired : WorkflowEngine Unit :=
  (abcEngine.add_edge ("A") ("B")).add_edge ("A") ("C")

/-- A freshly constructed engine: no nodes, no edges, no entry point. -/
def blankEngine : WorkflowEngine Unit :=
  {}

/-- Nodes `"A"` and `"B"` with a direct edge `A → B`, entry `"A"`. -/
def directEngine : WorkflowEngine Unit :=
  { nodes := [("A", idNode), ("B", idNode)],
    edges := [("A", Edge.direct ("B"))],
    start_node := some ("A") }

/-! ### Unfolding lemmas for one iteration of the run loop -/

/-- With no current node the loop exits and the run finishes. -/
theorem runAux_none {V : Type} [DecidableEq V] (eng : WorkflowEngine V)
    (hs : Bool) (fuel : Nat) (st : WorkflowState V) (logs tr : List String) :
    runAux eng hs fuel none st logs tr = finishRun hs st logs tr := by
  cases fuel <;> simp [runAux]

/-- With the step budget exhausted the loop exits and the run finishes. -/
theorem runAux_zero {V : Type} [DecidableEq V] (eng : WorkflowEngine V)
    (hs : Bool) (cur : Option String) (st : WorkflowState V)
    (logs tr : List String) :
    runAux eng hs 0 cur st logs tr = finishRun hs st logs tr := by
  cases cur <;> simp [runAux]

/-- A current node named by the empty string is falsy in the loop
condition, so the loop exits and the run finishes. -/
theorem runAux_emptyName {V : Type} [DecidableEq V] (eng : WorkflowEngine V)
    (hs : Bool) (fuel : Nat) (st : WorkflowState V) (logs tr : List String) :
    runAux eng hs (fuel + 1) (some ("")) st logs tr = finishRun hs st logs tr := by
  simp [runAux]

/-- An unregistered current node aborts the run with the not-found error,
after the step message was already delivered to the sink. -/
theorem runAux_notFound {V : Type} [DecidableEq V] {eng : WorkflowEngine V}
    {n : String} (hs : Bool) (fuel : Nat) (st : WorkflowState V)
    (logs tr : List String) (hn : n ≠ "")
    (h : List.lookup n eng.nodes = none) :
    runAux eng hs (fuel + 1) (some n) st logs tr =
      (Except.error (notFoundMsg n),
       if hs then tr ++ [stepMsg (MAX_STEPS - (fuel + 1)) n] else tr) := by
  simp [runAux, hn, h]

/-- A node function that raises aborts the run with exactly its error. -/
theorem runAux_nodeError {V : Type} [DecidableEq V] {eng : WorkflowEngine V}
    {n : String} {f : NodeFunction V} {e : String} (hs : Bool) (fuel : Nat)
    {st : WorkflowState V} (logs tr : List String) (hn : n ≠ "")
    (hf : List.lookup n eng.nodes = some f)
    (he : f st = Except.error e) :
    runAux eng hs (fuel + 1) (some n) st logs tr =
      (Except.error e,
       if hs then tr ++ [stepMsg (MAX_STEPS - (fuel + 1)) n] else tr) := by
  simp [runAux, hn, hf, he]

/-- A successful step: log the step message, run the node, append the node
name to the history, resolve the next node and continue. -/
theorem runAux_stepOk {V : Type} [DecidableEq V] {eng : WorkflowEngine V}
    {n : String} {f : NodeFunction V} {st st1 : WorkflowState V} (hs : Bool)
    (fuel : Nat) (logs tr : List String) (hn : n ≠ "")
    (hf : List.lookup n eng.nodes = some f)
    (hok : f st = Except.ok st1) :
    runAux eng hs (fuel + 1) (some n) st logs tr =
      runAux eng hs fuel
        (resolveNext (List.lookup n eng.edges)
          { st1 with history := st1.history ++ [n] })
        { st1 with history := st1.history ++ [n] }
        (logs ++ [stepMsg (MAX_STEPS - (fuel + 1)) n])
        (if hs then tr ++ [stepMsg (MAX_STEPS - (fuel + 1)) n] else tr) := by
  simp [runAux, hn, hf, hok]

/-- The run result (final state and run log) does not depend on whether a
sink is attached, nor on the transcript accumulated so far. -/
theorem runAux_fst_sink_irrel {V : Type} [DecidableEq V]
    (eng : WorkflowEngine V) (hs hs' : Bool) :
    ∀ (fuel : Nat) (cur : Option String) (st : WorkflowState V)
      (logs tr tr' : List String),
      (runAux eng hs fuel cur st logs tr).1 =
        (runAux eng hs' fuel cur st logs tr').1 := by
  intro fuel
  induction fuel with
  | zero =>
    intro cur st logs tr tr'
    rw [runAux_zero, runAux_zero]; rfl
  | succ k ih =>
    intro cur st logs tr tr'
    cases cur with
    | none => rw [runAux_none, runAux_none]; rfl
    | some n =>
      by_cases hn : n = ""
      · subst hn; rw [runAux_emptyName, runAux_emptyName]; rfl
      · cases hnode : List.lookup n eng.nodes with
        | none =>
          rw [runAux_notFound hs k st logs tr hn hnode,
            runAux_notFound hs' k st logs tr' hn hnode]
        | some f =>
          cases hfe : f st with
          | error e =>
            rw [runAux_nodeError hs k logs tr hn hnode hfe,
              runAux_nodeError hs' k logs tr' hn hnode hfe]
          | ok st1 =>
            rw [runAux_stepOk hs k logs tr hn hnode hfe,
              runAux_stepOk hs' k logs tr' hn hnode hfe]
            exact ih _ _ _ _ _

/-- Claim C1: for every graph, every initial data mapping, and every
sequence of node functions, running in batch mode (no progress sink) and
running in streaming mode (with a progress sink attached) return the same
final state and the same run log contents; the sink has no effect on
control flow or data. -/
theorem claim1_sink_is_pure_observer {V : Type} [DecidableEq V]
    (eng : WorkflowEngine V) (initial_payload : List (String × V)) :
    (run eng true initial_payload).1 = (run eng false initial_payload).1 :=
  runAux_fst_sink_irrel eng true false MAX_STEPS eng.start_node
    { data := initial_payload, history := [] } [] [] []

/-- Claim C8: with the entry node unset, a run on any initial data
executes zero steps and terminates normally: no node function is invoked,
the final state's data equals the initial data, the history is empty, and
the log contains only the completion entry (on a sink, only the completion
entry is delivered). -/
theorem claim8_unset_entry_zero_steps {V : Type} [DecidableEq V]
    (eng : WorkflowEngine V) (hs : Bool) (initial_payload : List (String × V))
    (h : eng.start_node = none) :
    run eng hs initial_payload =
      (Except.ok ({ data := initial_payload, history := [] }, [finishMsg]),
       if hs then [finishMsg] else []) := by
  rw [run, h, runAux_none]
  cases hs <;> rfl

/-- Witness for C8 on the freshly constructed engine. -/
theorem claim8_witness :
    run blankEngine false [] =
      (Except.ok ({ data := [], history := [] }, [finishMsg]), []) :=
  claim8_unset_entry_zero_steps blankEngine false [] rfl

/-- Claim C3 (amended: the entry node name is nonempty): if the entry node
name is nonempty and absent from the node mapping, `run` fails with the
missing-node error — for any sink mode and any initial data — and in batch
mode nothing at all is delivered to a sink; no state or log is returned to
the caller.  (For the empty entry name the code instead terminates
normally, see the counterexample.) -/
theorem claim3_missing_entry_fails {V : Type} [DecidableEq V]
    (eng : WorkflowEngine V) (n : String) (hstart : eng.start_node = some n)
    (hne : n ≠ "") (habs : List.lookup n eng.nodes = none) :
    (∀ (hs : Bool) (init : List (String × V)),
        (run eng hs init).1 = Except.error (notFoundMsg n)) ∧
      ∀ init : List (String × V), (run eng false init).2 = [] := by
  constructor
  · intro hs init
    rw [run, hstart, show MAX_STEPS = 49 + 1 from rfl,
      runAux_notFound hs 49 _ [] [] hne habs]
  · intro init
    rw [run, hstart, show MAX_STEPS = 49 + 1 from rfl,
      runAux_notFound false 49 _ [] [] hne habs]
    rfl

/-- Witness for C3 (amended) on a graph whose entry `"a"` is unregistered. -/
theorem claim3_witness :
    (run missingEntryEngine false []).1 = Except.error (notFoundMsg ("a")) :=
  (claim3_missing_entry_fails missingEntryEngine ("a") rfl (by decide) rfl).1
    false []

/-- Counterexample to C3 as stated: the entry node name `""` is absent
from the (empty) node mapping, yet `run` does not fail — it returns
normally with the empty-history state and the completion-only log, because
the empty string is falsy in the loop condition. -/
theorem claim3_counterexample :
    run emptyEntryEngine false [] =
        (Except.ok ({ data := [], history := [] }, [finishMsg]), []) ∧
      ∀ e : String, (run emptyEntryEngine false []).1 ≠ Except.error e := by
  have key : run emptyEntryEngine false [] =
      (Except.ok ({ data := [], history := [] }, [finishMsg]), []) := by
    rw [run, show emptyEntryEngine.start_node = some ("") from rfl,
      show MAX_STEPS = 49 + 1 from rfl, runAux_emptyName]
    rfl
  refine ⟨key, fun e h => ?_⟩
  rw [key] at h
  exact Except.noConfusion h

/-- Claim C4 (amended: the target is nonempty): after a node with a direct
edge finishes executing, the engine continues with exactly the edge's
fixed target — for every nonempty target string and whenever the step
bound is not exhausted.  (For the empty target string the run terminates
instead, see the counterexample.) -/
theorem claim4_direct_edge_next {V : Type} [DecidableEq V]
    {eng : WorkflowEngine V} {n t : String} {f : NodeFunction V}
    {st st1 : WorkflowState V} (hs : Bool) (fuel : Nat)
    (logs tr : List String) (hn : n ≠ "")
    (hf : List.lookup n eng.nodes = some f) (hok : f st = Except.ok st1)
    (hedge : List.lookup n eng.edges = some (Edge.direct t)) (ht : t ≠ "") :
    runAux eng hs (fuel + 1) (some n) st logs tr =
      runAux eng hs fuel (some t)
        { st1 with history := st1.history ++ [n] }
        (logs ++ [stepMsg (MAX_STEPS - (fuel + 1)) n])
        (if hs then tr ++ [stepMsg (MAX_STEPS - (fuel + 1)) n] else tr) := by
  rw [runAux_stepOk hs fuel logs tr hn hf hok, hedge]
  simp [resolveNext, ht]

/-- Witness for C4 (amended) on the two-node graph `A → B`: the step after
`A` continues with `B`. -/
theorem claim4_witness :
    runAux directEngine false 50 (some ("A"))
        { data := [], history := [] } [] [] =
      runAux directEngine false 49 (some ("B"))
        { data := [], history := ["A"] } [stepMsg 0 ("A")] [] := by
  have h := claim4_direct_edge_next false 49 [] [] (by decide)
    (show List.lookup ("A") directEngine.nodes = some idNode from rfl)
    (show idNode { data := [], history := [] } =
      Except.ok { data := ([] : List (String × Unit)), history := [] } from rfl)
    (show List.lookup ("A") directEngine.edges =
      some (Edge.direct ("B")) from rfl)
    (by decide)
  exact h

/-- Counterexample to C4 as stated ("for every possible target string"):
node `"A"` has a direct edge whose target is the empty string, the
empty-string node is registered, and the step bound is not exhausted, yet
the run terminates after `"A"` without ever attempting the target — the
history records only `"A"` and the log closes right after step 1. -/
theorem claim4_counterexample :
    (run edgeToEmptyEngine false []).1 =
        Except.ok ({ data := [], history := ["A"] },
          [stepMsg 0 ("A"), finishMsg]) ∧
      ∀ (st : WorkflowState Unit) (ls tr1 : List String),
        run edgeToEmptyEngine false [] = (Except.ok (st, ls), tr1) →
        ¬ ("" ∈ st.history) := by
  have key : run edgeToEmptyEngine false [] =
      (Except.ok (({ data := [], history := ["A"] } : WorkflowState Unit),
        [stepMsg 0 ("A"), finishMsg]), []) := by
    rfl
  refine ⟨by rw [key], fun st ls tr1 h => ?_⟩
  rw [key] at h
  simp only [Prod.mk.injEq, Except.ok.injEq] at h
  obtain ⟨⟨hst, _⟩, _⟩ := h
  rw [← hst]
  decide

/-- Claim C5: after a node with a conditional edge `(key, mapping)`
executes, the engine reads the value at `key` in the state's data mapping
and looks that value up in the mapping — the next node is exactly
`condLookup mapping (data value)`, so a mapped target (possibly the null
target) is followed; and when the observed value is absent from the
mapping the run terminates immediately after that node with no further
steps. -/
theorem claim5_conditional_edge_next {V : Type} [DecidableEq V]
    {eng : WorkflowEngine V} {n key : String}
    {m : List (Option V × Option String)} {f : NodeFunction V}
    {st st1 : WorkflowState V} (hs : Bool) (fuel : Nat)
    (logs tr : List String) (hn : n ≠ "")
    (hf : List.lookup n eng.nodes = some f) (hok : f st = Except.ok st1)
    (hedge : List.lookup n eng.edges = some (Edge.conditional key m)) :
    (runAux eng hs (fuel + 1) (some n) st logs tr =
        runAux eng hs fuel (condLookup m (List.lookup key st1.data))
          { st1 with history := st1.history ++ [n] }
          (logs ++ [stepMsg (MAX_STEPS - (fuel + 1)) n])
          (if hs then tr ++ [stepMsg (MAX_STEPS - (fuel + 1)) n] else tr)) ∧
      (List.lookup (List.lookup key st1.data) m = none →
        runAux eng hs (fuel + 1) (some n) st logs tr =
          (Except.ok ({ st1 with history := st1.history ++ [n] },
            (logs ++ [stepMsg (MAX_STEPS - (fuel + 1)) n]) ++ [finishMsg]),
           if hs then
             (tr ++ [stepMsg (MAX_STEPS - (fuel + 1)) n]) ++ [finishMsg]
           else tr)) := by
  have h1 : runAux eng hs (fuel + 1) (some n) st logs tr =
      runAux eng hs fuel (condLookup m (List.lookup key st1.data))
        { st1 with history := st1.history ++ [n] }
        (logs ++ [stepMsg (MAX_STEPS - (fuel + 1)) n])
        (if hs then tr ++ [stepMsg (MAX_STEPS - (fuel + 1)) n] else tr) := by
    rw [runAux_stepOk hs fuel logs tr hn hf hok, hedge]
    rfl
  refine ⟨h1, fun habs => ?_⟩
  have h2 : condLookup m (List.lookup key st1.data) = none := by
    rw [condLookup, habs]
  rw [h1, h2, runAux_none]
  cases hs <;> rfl

/-- Witness for C5 on `condStopEngine`: the data value at `"k"` is absent
from the mapping, so the run terminates right after node `"A"`. -/
theorem claim5_witness :
    run condStopEngine false [] =
      (Except.ok ({ data := [], history := ["A"] },
        [stepMsg 0 ("A"), finishMsg]), []) := by
  have h := (claim5_conditional_edge_next false 49 [] [] (by decide)
    (show List.lookup ("A") condStopEngine.nodes = some idNode from rfl)
    (show idNode { data := [], history := [] } =
      Except.ok { data := ([] : List (String × Unit)), history := [] } from rfl)
    (show List.lookup ("A") condStopEngine.edges =
      some (Edge.conditional ("k") [(some (), some ("B"))]) from rfl)).2 rfl
  exact h

/-- All run-loop errors come from a missing node or a failing node
function. -/
theorem runAux_error_cases {V : Type} [DecidableEq V] (eng : WorkflowEngine V)
    (hs : Bool) :
    ∀ (fuel : Nat) (cur : Option String) (st : WorkflowState V)
      (logs tr : List String) (e : String),
      (runAux eng hs fuel cur st logs tr).1 = Except.error e →
      (∃ n, List.lookup n eng.nodes = none ∧ e = notFoundMsg n) ∨
        ∃ (n : String) (f : NodeFunction V) (s : WorkflowState V),
          List.lookup n eng.nodes = some f ∧ f s = Except.error e := by
  intro fuel
  induction fuel with
  | zero =>
    intro cur st logs tr e h
    rw [runAux_zero] at h
    exact absurd h (by simp [finishRun])
  | succ k ih =>
    intro cur st logs tr e h
    cases cur with
    | none =>
      rw [runAux_none] at h
      exact absurd h (by simp [finishRun])
    | some n =>
      by_cases hn : n = ""
      · subst hn
        rw [runAux_emptyName] at h
        exact absurd h (by simp [finishRun])
      · cases hnode : List.lookup n eng.nodes with
        | none =>
          rw [runAux_notFound hs k st logs tr hn hnode] at h
          simp only [] at h
          exact Or.inl ⟨n, hnode, (Except.error.injEq _ _ ▸ h).symm⟩
        | some f =>
          cases hfe : f st with
          | error e1 =>
            rw [runAux_nodeError hs k logs tr hn hnode hfe] at h
            simp only [] at h
            have he : e1 = e := by
              injection h
            exact Or.inr ⟨n, f, st, hnode, he ▸ hfe⟩
          | ok st1 =>
            rw [runAux_stepOk hs k logs tr hn hnode hfe] at h
            exact ih _ _ _ _ _ h

/-- Claim C6: a node function's own exception propagates to the caller of
`run` as the run's failure — neither retried nor suppressed — and a run
raises an error only for a node-internal failure or for a referenced node
name that is unregistered. -/
theorem claim6_node_error_propagates {V : Type} [DecidableEq V] :
    (∀ (eng : WorkflowEngine V) (hs : Bool) (fuel : Nat) (n : String)
        (f : NodeFunction V) (st : WorkflowState V) (logs tr : List String)
        (e : String), n ≠ "" → List.lookup n eng.nodes = some f →
        f st = Except.error e →
        (runAux eng hs (fuel + 1) (some n) st logs tr).1 = Except.error e) ∧
      ∀ (eng : WorkflowEngine V) (hs : Bool) (init : List (String × V))
        (e : String), (run eng hs init).1 = Except.error e →
        (∃ n, List.lookup n eng.nodes = none ∧ e = notFoundMsg n) ∨
          ∃ (n : String) (f : NodeFunction V) (s : WorkflowState V),
            List.lookup n eng.nodes = some f ∧ f s = Except.error e := by
  constructor
  · intro eng hs fuel n f st logs tr e hn hf he
    rw [runAux_nodeError hs fuel logs tr hn hf he]
  · intro eng hs init e h
    exact runAux_error_cases eng hs MAX_STEPS eng.start_node _ [] [] e h

/-- Witness for C6 on `boomEngine`: node `"b"` raises `"boom"` and the run
fails with exactly that error. -/
theorem claim6_witness :
    (runAux boomEngine false 50 (some ("b"))
        { data := [], history := [] } [] []).1 = Except.error ("boom") :=
  (claim6_node_error_propagates (V := Unit)).1 boomEngine false 49 ("b")
    boomNode { data := [], history := [] } [] [] ("boom") (by decide)
    (show List.lookup ("b") boomEngine.nodes = some boomNode from rfl) rfl

/-- Claim C7: registering a second edge for the same source replaces the
prior rule entirely (last registration wins) in all four
direct/conditional combinations, and after adding edge `A → B` and then
`A → C`, the step after `A` continues with `C` — never with `B`. -/
theorem claim7_last_registration_wins {V : Type} [DecidableEq V] :
    (∀ (eng : WorkflowEngine V) (A B C : String),
        List.lookup A ((eng.add_edge A B).add_edge A C).edges =
          some (Edge.direct C)) ∧
      (∀ (eng : WorkflowEngine V) (A B k : String)
          (m : List (Option V × Option String)),
        List.lookup A ((eng.add_edge A B).add_conditional_edge A k m).edges =
          some (Edge.conditional k m)) ∧
      (∀ (eng : WorkflowEngine V) (A k : String)
          (m : List (Option V × Option String)) (C : String),
        List.lookup A ((eng.add_conditional_edge A k m).add_edge A C).edges =
          some (Edge.direct C)) ∧
      (∀ (eng : WorkflowEngine V) (A k : String)
          (m : List (Option V × Option String)) (k1 : String)
          (m1 : List (Option V × Option String)),
        List.lookup A
            ((eng.add_conditional_edge A k m).add_conditional_edge A k1 m1).edges =
          some (Edge.conditional k1 m1)) ∧
      ∀ (eng : WorkflowEngine V) (A B C : String) (hs : Bool) (fuel : Nat)
        (f : NodeFunction V) (st st1 : WorkflowState V) (logs tr : List String),
        A ≠ "" → C ≠ "" →
        List.lookup A ((eng.add_edge A B).add_edge A C).nodes = some f →
        f st = Except.ok st1 →
        (runAux ((eng.add_edge A B).add_edge A C) hs (fuel + 1) (some A)
            st logs tr =
          runAux ((eng.add_edge A B).add_edge A C) hs fuel (some C)
            { st1 with history := st1.history ++ [A] }
            (logs ++ [stepMsg (MAX_STEPS - (fuel + 1)) A])
            (if hs then tr ++ [stepMsg (MAX_STEPS - (fuel + 1)) A] else tr)) ∧
          (B ≠ C → ∀ s : WorkflowState V,
            resolveNext (List.lookup A ((eng.add_edge A B).add_edge A C).edges) s ≠
              some B) := by
  refine ⟨?_, ?_, ?_, ?_, ?_⟩
  · intro eng A B C
    simp [WorkflowEngine.add_edge, List.lookup]
  · intro eng A B k m
    simp [WorkflowEngine.add_edge, WorkflowEngine.add_conditional_edge, List.lookup]
  · intro eng A k m C
    simp [WorkflowEngine.add_edge, WorkflowEngine.add_conditional_edge, List.lookup]
  · intro eng A k m k1 m1
    simp [WorkflowEngine.add_conditional_edge, List.lookup]
  · intro eng A B C hs fuel f st st1 logs tr hA hC hf hok
    have hedge : List.lookup A ((eng.add_edge A B).add_edge A C).edges =
        some (Edge.direct C) := by
      simp [WorkflowEngine.add_edge, List.lookup]
    refine ⟨?_, fun hBC s => ?_⟩
    · rw [runAux_stepOk hs fuel logs tr hA hf hok, hedge]
      simp [resolveNext, hC]
    · rw [hedge]
      simp [resolveNext, hC]
      exact fun h => hBC h.symm

/-- Witness for C7 on `abcRewired` (edges `A → B` then `A → C` over nodes
`A`, `B`, `C`): the stored rule for `A` is `direct C` and the step after
`A` continues with `C`. -/
theorem claim7_witness :
    List.lookup ("A") abcRewired.edges = some (Edge.direct ("C")) ∧
      runAux abcRewired false 50 (some ("A"))
          { data := [], history := [] } [] [] =
        runAux abcRewired false 49 (some ("C"))
          { data := [], history := ["A"] } [stepMsg 0 ("A")] [] := by
  refine ⟨(claim7_last_registration_wins (V := Unit)).1 abcEngine ("A") ("B") ("C"), ?_⟩
  have h := (((claim7_last_registration_wins (V := Unit)).2.2.2.2 abcEngine ("A") ("B")
      ("C") false 49 idNode { data := [], history := [] }
      { data := [], history := [] } [] [] (by decide) (by decide)
      (show List.lookup ("A")
          ((abcEngine.add_edge ("A") ("B")).add_edge ("A") ("C")).nodes =
        some idNode from rfl)
      rfl).1)
  exact h

/-- Claim C10: when a conditional edge's key is absent from the state's
data mapping at resolution time, no error is raised at the lookup — the
absent key reads as the null value — and unless the mapping sends the null
value to a target, the run terminates normally right after that node. -/
theorem claim10_missing_key_reads_null {V : Type} [DecidableEq V]
    {eng : WorkflowEngine V} {n key : String}
    {m : List (Option V × Option String)} {f : NodeFunction V}
    {st1 : WorkflowState V} (hs : Bool) (init : List (String × V))
    (hstart : eng.start_node = some n) (hn : n ≠ "")
    (hf : List.lookup n eng.nodes = some f)
    (hok : f { data := init, history := [] } = Except.ok st1)
    (hedge : List.lookup n eng.edges = some (Edge.conditional key m))
    (hkey : List.lookup key st1.data = none)
    (hnull : condLookup m none = none) :
    run eng hs init =
      (Except.ok ({ st1 with history := st1.history ++ [n] },
        [stepMsg 0 n, finishMsg]),
       if hs then [stepMsg 0 n, finishMsg] else []) := by
  rw [run, hstart, show MAX_STEPS = 49 + 1 from rfl,
    runAux_stepOk hs 49 [] [] hn hf hok, hedge,
    show resolveNext (some (Edge.conditional key m))
        { st1 with history := st1.history ++ [n] } = none from by
      simp [resolveNext, hkey, hnull],
    runAux_none]
  cases hs <;> rfl

/-- Witness for C10 on `condStopEngine` in streaming mode: key `"k"` is
absent from the data, the mapping has no entry for the null value, and the
run ends normally after node `"A"`. -/
theorem claim10_witness :
    run condStopEngine true [] =
      (Except.ok ({ data := [], history := ["A"] },
        [stepMsg 0 ("A"), finishMsg]),
       [stepMsg 0 ("A"), finishMsg]) := by
  have h := claim10_missing_key_reads_null true []
    (show condStopEngine.start_node = some ("A") from rfl) (by decide)
    (show List.lookup ("A") condStopEngine.nodes = some idNode from rfl)
    (show idNode { data := [], history := [] } =
      Except.ok { data := ([] : List (String × Unit)), history := [] } from rfl)
    (show List.lookup ("A") condStopEngine.edges =
      some (Edge.conditional ("k") [(some (), some ("B"))]) from rfl)
    rfl rfl
  exact h

/-- A conditional self-loop that always selects its own (nonempty) node
again consumes all remaining fuel, logging one step message per unit of
fuel, and terminates normally. -/
theorem runAux_selfLoop {V : Type} [DecidableEq V] {eng : WorkflowEngine V}
    {n key : String} {m : List (Option V × Option String)}
    {f : NodeFunction V} (hs : Bool) (hn : n ≠ "")
    (hf : List.lookup n eng.nodes = some f)
    (htot : ∀ s, ∃ s1, f s = Except.ok s1)
    (hedge : List.lookup n eng.edges = some (Edge.conditional key m))
    (hloop : ∀ s : WorkflowState V,
      condLookup m (List.lookup key s.data) = some n) :
    ∀ fuel : Nat, fuel ≤ MAX_STEPS →
      ∀ (st : WorkflowState V) (logs tr : List String),
        ∃ (st1 : WorkflowState V) (tr1 : List String),
          runAux eng hs fuel (some n) st logs tr =
            (Except.ok (st1,
              (logs ++ (List.range fuel).map
                (fun i => stepMsg (MAX_STEPS - fuel + i) n)) ++ [finishMsg]),
             tr1) := by
  intro fuel
  induction fuel with
  | zero =>
    intro _ st logs tr
    refine ⟨st, if hs then tr ++ [finishMsg] else tr, ?_⟩
    rw [runAux_zero]
    simp [finishRun]
  | succ k ih =>
    intro hle st logs tr
    obtain ⟨s1, hfs⟩ := htot st
    have hres : resolveNext (some (Edge.conditional key m))
        { s1 with history := s1.history ++ [n] } = some n := by
      rw [resolveNext]
      exact hloop _
    rw [runAux_stepOk hs k logs tr hn hf hfs, hedge, hres]
    obtain ⟨st1, tr1, hrec⟩ := ih (by omega)
      { s1 with history := s1.history ++ [n] }
      (logs ++ [stepMsg (MAX_STEPS - (k + 1)) n])
      (if hs then tr ++ [stepMsg (MAX_STEPS - (k + 1)) n] else tr)
    refine ⟨st1, tr1, ?_⟩
    rw [hrec]
    have hmaps : (List.range (k + 1)).map
        (fun i => stepMsg (MAX_STEPS - (k + 1) + i) n) =
        stepMsg (MAX_STEPS - (k + 1)) n ::
          (List.range k).map (fun i => stepMsg (MAX_STEPS - k + i) n) := by
      rw [List.range_succ_eq_map, List.map_cons, List.map_map]
      refine congrArg₂ _ (by rw [Nat.add_zero]) ?_
      refine List.map_congr_left fun i _ => ?_
      have : MAX_STEPS - (k + 1) + (i + 1) = MAX_STEPS - k + i := by omega
      simp [Function.comp, Nat.succ_eq_add_one, this]
    rw [hmaps]
    simp

/-- Claim C2 (amended: the looping node's name is nonempty): a run from a
registered node whose (never-failing) function is followed by a
conditional edge that always selects that same node again executes
exactly `MAX_STEPS = 50` steps and terminates normally with no error
raised; the returned log is exactly the 50 step entries followed by the
single completion entry.  (For the empty node name the run instead
terminates at once, see the counterexample.) -/
theorem claim2_self_loop_runs_fifty_steps {V : Type} [DecidableEq V]
    {eng : WorkflowEngine V} {n key : String}
    {m : List (Option V × Option String)} {f : NodeFunction V} (hs : Bool)
    (init : List (String × V)) (hstart : eng.start_node = some n)
    (hn : n ≠ "") (hf : List.lookup n eng.nodes = some f)
    (htot : ∀ s, ∃ s1, f s = Except.ok s1)
    (hedge : List.lookup n eng.edges = some (Edge.conditional key m))
    (hloop : ∀ s : WorkflowState V,
      condLookup m (List.lookup key s.data) = some n) :
    ∃ (st1 : WorkflowState V) (tr1 : List String),
      run eng hs init =
        (Except.ok (st1,
          (List.range MAX_STEPS).map (fun i => stepMsg i n) ++ [finishMsg]),
         tr1) := by
  obtain ⟨st1, tr1, h⟩ := runAux_selfLoop hs hn hf htot hedge hloop MAX_STEPS
    le_rfl { data := init, history := [] } [] []
  refine ⟨st1, tr1, ?_⟩
  rw [run, hstart, h]
  simp

/-- Witness for C2 (amended) on `loopEngine`: its node `"n"` loops on
itself and the run's log is the 50 step entries plus the completion line. -/
theorem claim2_witness :
    ∃ (st1 : WorkflowState Unit) (tr1 : List String),
      run loopEngine false [] =
        (Except.ok (st1,
          (List.range MAX_STEPS).map (fun i => stepMsg i ("n")) ++ [finishMsg]),
         tr1) :=
  claim2_self_loop_runs_fifty_steps false []
    (show loopEngine.start_node = some ("n") from rfl) (by decide)
    (show List.lookup ("n") loopEngine.nodes = some idNode from rfl)
    (fun s => ⟨s, rfl⟩)
    (show List.lookup ("n") loopEngine.edges =
      some (Edge.conditional ("k") (loopMapping ("n"))) from rfl)
    (fun s => by
      cases h : List.lookup ("k") s.data with
      | none => rfl
      | some u => cases u; rfl)

/-- Counterexample to C2 as stated: the graph `loopEngineEmptyName`
contains the node `""` with a conditional edge that always selects `""`
again, yet a run from that node executes zero steps (the empty string is
falsy in the loop condition) and returns a log with a single entry, not
the claimed 50 step entries plus completion. -/
theorem claim2_counterexample :
    run loopEngineEmptyName false [] =
        (Except.ok ({ data := [], history := [] }, [finishMsg]), []) ∧
      ∀ (st1 : WorkflowState Unit) (logs tr1 : List String),
        run loopEngineEmptyName false [] = (Except.ok (st1, logs), tr1) →
        logs.length ≠ 51 := by
  have key : run loopEngineEmptyName false [] =
      (Except.ok ({ data := [], history := [] }, [finishMsg]), []) := by
    rw [run, show loopEngineEmptyName.start_node = some ("") from rfl,
      show MAX_STEPS = 49 + 1 from rfl, runAux_emptyName]
    rfl
  refine ⟨key, fun st1 logs tr1 h => ?_⟩
  rw [key] at h
  simp only [Prod.mk.injEq, Except.ok.injEq] at h
  obtain ⟨⟨_, hlog⟩, _⟩ := h
  rw [← hlog]
  decide

/-- When every node function preserves the history field (as the data
model prescribes: nodes mutate `data`, only the engine appends to
`history`), a normally returning loop produces a log that enumerates, in
order and with correct step numbers, exactly the node names appended to
the history, followed by the completion entry. -/
theorem runAux_log_matches_history {V : Type} [DecidableEq V]
    {eng : WorkflowEngine V}
    (H : ∀ (n : String) (f : NodeFunction V),
      List.lookup n eng.nodes = some f →
      ∀ (s s1 : WorkflowState V), f s = Except.ok s1 → s1.history = s.history)
    (hs : Bool) :
    ∀ fuel : Nat, fuel ≤ MAX_STEPS →
      ∀ (cur : Option String) (st : WorkflowState V) (logs tr : List String)
        (st1 : WorkflowState V) (ls tr1 : List String),
        runAux eng hs fuel cur st logs tr = (Except.ok (st1, ls), tr1) →
        ∃ names : List String,
          st1.history = st.history ++ names ∧
          ls = (logs ++ (names.enumFrom (MAX_STEPS - fuel)).map
            (fun p => stepMsg p.1 p.2)) ++ [finishMsg] := by
  intro fuel
  induction fuel with
  | zero =>
    intro _ cur st logs tr st1 ls tr1 h
    rw [runAux_zero] at h
    simp only [finishRun, Prod.mk.injEq, Except.ok.injEq] at h
    obtain ⟨⟨hst, hls⟩, _⟩ := h
    exact ⟨[], by simp [← hst], by simp [← hls]⟩
  | succ k ih =>
    intro hle cur st logs tr st1 ls tr1 h
    cases cur with
    | none =>
      rw [runAux_none] at h
      simp only [finishRun, Prod.mk.injEq, Except.ok.injEq] at h
      obtain ⟨⟨hst, hls⟩, _⟩ := h
      exact ⟨[], by simp [← hst], by simp [← hls]⟩
    | some n =>
      by_cases hn : n = ""
      · subst hn
        rw [runAux_emptyName] at h
        simp only [finishRun, Prod.mk.injEq, Except.ok.injEq] at h
        obtain ⟨⟨hst, hls⟩, _⟩ := h
        exact ⟨[], by simp [← hst], by simp [← hls]⟩
      · cases hnode : List.lookup n eng.nodes with
        | none =>
          rw [runAux_notFound hs k st logs tr hn hnode] at h
          exact absurd h (by simp)
        | some f =>
          cases hfe : f st with
          | error e1 =>
            rw [runAux_nodeError hs k logs tr hn hnode hfe] at h
            exact absurd h (by simp)
          | ok s1 =>
            rw [runAux_stepOk hs k logs tr hn hnode hfe] at h
            obtain ⟨names, hh, hl⟩ := ih (by omega) _ _ _ _ _ _ _ h
            refine ⟨n :: names, ?_, ?_⟩
            · rw [hh]
              simp [H n f hnode st s1 hfe]
            · rw [hl, List.enumFrom_cons,
                show MAX_STEPS - (k + 1) + 1 = MAX_STEPS - k from by omega]
              simp

/-- Claim C9 (amended: every registered node function leaves the history
field unchanged, as the data model prescribes): for every run that
returns normally, the returned log enumerates the history — the log has
exactly one more entry than the history, its `i`-th entry is the step
message numbered `i + 1` naming the `i`-th history entry, and its final
entry is the completion entry.  (A node function that rewrites the
history breaks this, see the counterexample.) -/
theorem claim9_log_mirrors_history {V : Type} [DecidableEq V]
    {eng : WorkflowEngine V}
    (H : ∀ (n : String) (f : NodeFunction V),
      List.lookup n eng.nodes = some f →
      ∀ (s s1 : WorkflowState V), f s = Except.ok s1 → s1.history = s.history)
    (hs : Bool) (init : List (String × V)) (st1 : WorkflowState V)
    (ls tr1 : List String)
    (h : run eng hs init = (Except.ok (st1, ls), tr1)) :
    ls = st1.history.enum.map (fun p => stepMsg p.1 p.2) ++ [finishMsg] ∧
      ls.length = st1.history.length + 1 := by
  obtain ⟨names, hh, hl⟩ := runAux_log_matches_history H hs MAX_STEPS le_rfl
    eng.start_node { data := init, history := [] } [] [] st1 ls tr1 h
  have hnames : st1.history = names := by simpa using hh
  constructor
  · rw [hl, hnames]
    simp [List.enum]
  · rw [hl, hnames]
    simp [List.enumFrom_length]

/-- Witness for C9 (amended) on the one-node graph `singleNodeEngine`. -/
theorem claim9_witness :
    ∃ (st1 : WorkflowState Unit) (ls tr1 : List String),
      run singleNodeEngine false [] = (Except.ok (st1, ls), tr1) ∧
        ls = st1.history.enum.map (fun p => stepMsg p.1 p.2) ++ [finishMsg] ∧
        ls.length = st1.history.length + 1 := by
  have hpres : ∀ (n : String) (f : NodeFunction Unit),
      List.lookup n singleNodeEngine.nodes = some f →
      ∀ (s s1 : WorkflowState Unit),
        f s = Except.ok s1 → s1.history = s.history := by
    intro n f hf s s1 hfs
    cases hab : n == ("a" : String) with
    | true =>
      simp only [singleNodeEngine, List.lookup, hab, Option.some.injEq] at hf
      subst hf
      simp only [idNode, Except.ok.injEq] at hfs
      rw [← hfs]
    | false =>
      simp [singleNodeEngine, List.lookup, hab] at hf
  have hrun : run singleNodeEngine false [] =
      (Except.ok (({ data := [], history := ["a"] } : WorkflowState Unit),
        [stepMsg 0 ("a"), finishMsg]), []) := by
    rfl
  exact ⟨_, _, _, hrun, claim9_log_mirrors_history hpres false [] _ _ _ hrun⟩

/-- Counterexample to C9 as stated: the node function of `clobberEngine`
rewrites the state's history, so a normally returning run yields a log of
2 entries against a history of 2 entries — not one more, and the log does
not enumerate the history. -/
theorem claim9_counterexample :
    run clobberEngine false [] =
        (Except.ok ({ data := [], history := ["x", "A"] },
          [stepMsg 0 ("A"), finishMsg]), []) ∧
      ([stepMsg 0 ("A"), finishMsg] : List String).length ≠
        (["x", "A"] : List String).length + 1 := by
  constructor
  · rfl
  · decide

end Workflow